import Mathlib

/-!
# Verification of the CH376S HID-proxy USB host core

A shallow embedding, in Lean 4, of the parts of the GhostHIDe firmware
(`src/drivers/ch37x`, `src/drivers/hid`, `src/src`) that the specification's
claims are about, together with proofs or refutations of those claims.

Machine integers are modelled as `Nat`/`Int` with explicit `% 2^w`
normalisation where overflow matters.  Byte buffers are modelled as total
functions `Nat → Nat` whose values are normalised with `% 256` on every read,
mirroring raw `uint8_t *` access in the C source.  The chip and the USB
device are modelled as an environment supplying a list of chip responses, one
per issued token, so that the transfer loops become structural recursion on
that list.  `float` arithmetic in the recoil sequencer is modelled as exact
rational arithmetic; `floorf`/`roundf` become `Int.floor` and
round-half-away-from-zero on `ℚ`.
-/

namespace GhostHIDe

/-! ## Byte-level helpers shared by the embeddings -/

/-- Normalise a modelled `uint8_t` read. -/
def byteAt (buf : Nat → Nat) (i : Nat) : Nat := buf i % 256

/-- Read `n` bytes little-endian starting at `off` (`sys_le16_to_cpu` /
`sys_le32_to_cpu` composed with `memcpy` in the source). -/
def leRead (buf : Nat → Nat) (off : Nat) : Nat → Nat
  | 0 => 0
  | n + 1 => byteAt buf off + 256 * leRead buf (off + 1) n

/-- Write the `n` little-endian bytes of `v` at `off`
(`sys_cpu_to_le16` / `sys_cpu_to_le32` composed with `memcpy`). -/
def leWrite (buf : Nat → Nat) (off : Nat) (v : Nat) : Nat → (Nat → Nat)
  | 0 => buf
  | n + 1 =>
    leWrite (fun i => if i = off then v % 256 else buf i) (off + 1) (v / 256) n

/-- Two's-complement interpretation of an unsigned `w`-bit value
(the `(int8_t)` / `(int16_t)` / `(int32_t)` casts of the source). -/
def toSigned (w : Nat) (v : Nat) : Int :=
  if v % 2 ^ w < 2 ^ (w - 1) then ((v % 2 ^ w : Nat) : Int)
  else ((v % 2 ^ w : Nat) : Int) - 2 ^ w

/-- Truncation of a signed value to `w` bits, reinterpreted as signed:
the value produced by storing `v` into a `w`-bit field and reading it back. -/
def signedTrunc (w : Nat) (v : Int) : Int := toSigned w (v % 2 ^ w).toNat

/-! ## C6 — `ch375_setBaudrate` (Dialect A) and `ch376s_setBaudrate`
(Dialect B), `src/drivers/ch37x/src/ch375.c:194` and
`src/drivers/ch37x/src/ch376s.c:169`.

The functions write the `SET_BAUDRATE` command byte followed by two
coefficient data bytes, or return `PARAM_INVALID` (here `none`) without
writing anything.  We model the emitted wire traffic as the pair of
coefficient bytes; the full emission is `[cmd SET_BAUDRATE, data d1, data d2]`
once a pair is produced. -/

/-- `CH375_CMD_SET_BAUDRATE` / `CH376S_CMD_SET_BAUDRATE`. -/
def CMD_SET_BAUDRATE : Nat := 0x02

/-- Coefficient bytes chosen by the `switch` in `ch375_setBaudrate`.
NOTE: in the source the `case 921600:` arm assigns `(0x07, 0xF3)` but has no
`break`, so control falls through into `case 100000:` which overwrites the
pair with `(0x03, 0xC4)`; the translation records the value that actually
reaches the write calls. -/
def ch375_setBaudrate (baudrate : Nat) : Option (Nat × Nat) :=
  if baudrate = 9600 then some (0x02, 0xB2)
  else if baudrate = 19200 then some (0x02, 0xD9)
  else if baudrate = 57600 then some (0x03, 0x98)
  else if baudrate = 115200 then some (0x03, 0xCC)
  else if baudrate = 460800 then some (0x03, 0xF3)
  else if baudrate = 921600 then some (0x03, 0xC4)
  else if baudrate = 100000 then some (0x03, 0xC4)
  else if baudrate = 1000000 then some (0x03, 0xFA)
  else if baudrate = 2000000 then some (0x03, 0xFD)
  else none

/-- Coefficient bytes chosen by the `switch` in `ch376s_setBaudrate`
(every arm of this one ends in `break`). -/
def ch376s_setBaudrate (baudrate : Nat) : Option (Nat × Nat) :=
  if baudrate = 9600 then some (0x02, 0xB2)
  else if baudrate = 19200 then some (0x02, 0xD9)
  else if baudrate = 57600 then some (0x03, 0x98)
  else if baudrate = 115200 then some (0x03, 0xCC)
  else if baudrate = 460800 then some (0x03, 0xF3)
  else if baudrate = 921600 then some (0x07, 0xF3)
  else none

/-- The per-baud coefficient table as the specification (and the dead
assignments inside the source's own `case 921600:` arm) give it for
Dialect A. -/
def ch375_baudTable : List (Nat × Nat × Nat) :=
  [(9600, 0x02, 0xB2), (19200, 0x02, 0xD9), (57600, 0x03, 0x98),
   (115200, 0x03, 0xCC), (460800, 0x03, 0xF3), (921600, 0x07, 0xF3),
   (1000000, 0x03, 0xFA), (2000000, 0x03, 0xFD)]

/-- C6: for each supported baudrate, `set_baud` must emit exactly the two
coefficient bytes of that baudrate's table entry, and unsupported rates must
be rejected with nothing written.  The code violates this at 921600: the
`case 921600:` arm lacks a `break`, so the chip is sent the `100000` entry's
bytes `(0x03, 0xC4)` instead of `(0x07, 0xF3)`; the code moreover accepts the
rate `100000`, which is in no table of the spec.  All other Dialect-A entries
and the whole Dialect-B table match. -/
theorem ch375_setBaudrate_921600_bug :
    ch375_setBaudrate 921600 = some (0x03, 0xC4) ∧
    ch375_setBaudrate 921600 ≠ some (0x07, 0xF3) ∧
    ch375_setBaudrate 100000 = some (0x03, 0xC4) ∧
    (∀ e ∈ ch375_baudTable, e.1 = 921600 ∨
      ch375_setBaudrate e.1 = some (e.2.1, e.2.2)) ∧
    ch376s_setBaudrate 9600 = some (0x02, 0xB2) ∧
    ch376s_setBaudrate 115200 = some (0x03, 0xCC) ∧
    ch375_setBaudrate 230400 = none ∧ ch376s_setBaudrate 230400 = none := by
  decide

/-! ## C8 — `hidKeyboard_SetKey`, `src/drivers/hid/src/hid_keyboard.c:151`.

The 6-byte key array of the boot-protocol keyboard report, modelled as a
`List Nat` (entries are the `uint8_t` cells `pKeysField[0..5]`).  The C
routine either inserts (`value != 0`) by scanning for the first empty slot,
breaking early on a duplicate, or removes by scanning for the code, then
shifting the tail left one cell and zero-filling the last cell — which on a
list is exactly `rest ++ [0]`. -/

/-- The insert scan of `hidKeyboard_SetKey` (`value != 0` branch). -/
def hidKeyboard_addKey : List Nat → Nat → List Nat
  | [], _ => []
  | k :: rest, code =>
    if k = 0 then code :: rest
    else if k = code then k :: rest
    else k :: hidKeyboard_addKey rest code

/-- The remove scan of `hidKeyboard_SetKey` (`value == 0` branch): the first
cell holding `code` is deleted and a zero is appended at the end. -/
def hidKeyboard_removeKey : List Nat → Nat → List Nat
  | [], _ => []
  | k :: rest, code =>
    if k = code then rest ++ [0]
    else k :: hidKeyboard_removeKey rest code

/-- `hidKeyboard_SetKey` on the key cells. -/
def hidKeyboard_SetKey (keys : List Nat) (code value : Nat) : List Nat :=
  if value ≠ 0 then hidKeyboard_addKey keys code
  else hidKeyboard_removeKey keys code

/-- Left-packed: once a zero cell appears, every later cell is zero. -/
def KeysPacked : List Nat → Prop
  | [] => True
  | k :: rest => if k = 0 then ∀ x ∈ rest, x = 0 else KeysPacked rest

/-- The key-array invariant: left-packed and no duplicate among the
non-zero cells. -/
def KeysInv (keys : List Nat) : Prop :=
  KeysPacked keys ∧ (keys.filter (fun k => !(k == 0))).Nodup

theorem keysPacked_of_all_zero {l : List Nat} (h : ∀ x ∈ l, x = 0) :
    KeysPacked l := by
  cases l with
  | nil => trivial
  | cons k rest =>
    have hk := h k (List.mem_cons_self _ _)
    simp only [KeysPacked, hk, if_pos rfl]
    exact fun x hx => h x (List.mem_cons_of_mem _ hx)

theorem keysPacked_append_zero {l : List Nat} (h : KeysPacked l) :
    KeysPacked (l ++ [0]) := by
  induction l with
  | nil => simp [KeysPacked]
  | cons k rest ih =>
    by_cases hk : k = 0
    · subst hk
      simp only [KeysPacked, if_pos rfl] at h ⊢
      intro x hx
      rcases List.mem_append.1 hx with hx | hx
      · exact h x hx
      · simpa using hx
    · simp only [List.cons_append, KeysPacked, if_neg hk] at h ⊢
      exact ih h

theorem filter_all_zero {l : List Nat} (h : ∀ x ∈ l, x = 0) :
    l.filter (fun k => !(k == 0)) = [] := by
  induction l with
  | nil => rfl
  | cons k rest ih =>
    have hk := h k (List.mem_cons_self _ _)
    subst hk
    simpa using ih fun x hx => h x (List.mem_cons_of_mem _ hx)

theorem mem_addKey {l : List Nat} {code x : Nat}
    (h : x ∈ hidKeyboard_addKey l code) : x ∈ l ∨ x = code := by
  induction l with
  | nil => simp [hidKeyboard_addKey] at h
  | cons k rest ih =>
    by_cases hk : k = 0
    · subst hk
      simp only [hidKeyboard_addKey, if_pos rfl] at h
      rcases List.mem_cons.1 h with h | h
      · exact Or.inr h
      · exact Or.inl (List.mem_cons_of_mem _ h)
    · by_cases hc : k = code
      · simp only [hidKeyboard_addKey, if_neg hk, if_pos hc] at h
        exact Or.inl h
      · simp only [hidKeyboard_addKey, if_neg hk, if_neg hc] at h
        rcases List.mem_cons.1 h with h | h
        · exact Or.inl (h ▸ List.mem_cons_self _ _)
        · rcases ih h with h | h
          · exact Or.inl (List.mem_cons_of_mem _ h)
          · exact Or.inr h

theorem mem_removeKey {l : List Nat} {code x : Nat}
    (h : x ∈ hidKeyboard_removeKey l code) : x ∈ l ∨ x = 0 := by
  induction l with
  | nil => simp [hidKeyboard_removeKey] at h
  | cons k rest ih =>
    by_cases hc : k = code
    · simp only [hidKeyboard_removeKey, if_pos hc] at h
      rcases List.mem_append.1 h with h | h
      · exact Or.inl (List.mem_cons_of_mem _ h)
      · simp at h
        exact Or.inr h
    · simp only [hidKeyboard_removeKey, if_neg hc] at h
      rcases List.mem_cons.1 h with h | h
      · exact Or.inl (h ▸ List.mem_cons_self _ _)
      · rcases ih h with h | h
        · exact Or.inl (List.mem_cons_of_mem _ h)
        · exact Or.inr h

theorem removeKey_of_not_mem {l : List Nat} {code : Nat} (h : code ∉ l) :
    hidKeyboard_removeKey l code = l := by
  induction l with
  | nil => rfl
  | cons k rest ih =>
    have hk : k ≠ code := fun hkc => h (hkc ▸ List.mem_cons_self _ _)
    simp only [hidKeyboard_removeKey, if_neg hk]
    exact congrArg _ (ih fun hm => h (List.mem_cons_of_mem _ hm))

theorem keysInv_addKey {l : List Nat} {code : Nat} (h : KeysInv l) :
    KeysInv (hidKeyboard_addKey l code) := by
  induction l with
  | nil => exact h
  | cons k rest ih =>
    obtain ⟨hp, hn⟩ := h
    by_cases hk : k = 0
    · subst hk
      simp only [KeysPacked, if_pos rfl] at hp
      simp only [hidKeyboard_addKey, if_pos rfl]
      by_cases hc : code = 0
      · subst hc
        exact ⟨by simpa [KeysPacked] using hp, hn⟩
      · refine ⟨by simpa [KeysPacked, hc] using keysPacked_of_all_zero hp, ?_⟩
        have hcb : (!(code == 0)) = true := by simpa using hc
        simp [List.filter, hcb, filter_all_zero hp]
    · by_cases hc : k = code
      · simp only [hidKeyboard_addKey, if_neg hk, if_pos hc]
        exact ⟨hp, hn⟩
      · simp only [hidKeyboard_addKey, if_neg hk, if_neg hc]
        simp only [KeysPacked, if_neg hk] at hp
        simp only [List.filter, (by simpa using hk : (!(k == 0)) = true)] at hn
        obtain ⟨hk1, hn1⟩ := List.nodup_cons.1 hn
        obtain ⟨hp2, hn2⟩ := ih ⟨hp, hn1⟩
        refine ⟨by simpa [KeysPacked, hk] using hp2, ?_⟩
        simp only [List.filter, (by simpa using hk : (!(k == 0)) = true)]
        refine List.nodup_cons.2 ⟨fun hmem => ?_, hn2⟩
        have := List.mem_of_mem_filter hmem
        rcases mem_addKey this with hm | hm
        · exact hk1 (List.mem_filter.2 ⟨hm, by simpa using hk⟩)
        · exact hc hm

theorem keysInv_removeKey {l : List Nat} {code : Nat} (h : KeysInv l) :
    KeysInv (hidKeyboard_removeKey l code) := by
  induction l with
  | nil => exact h
  | cons k rest ih =>
    obtain ⟨hp, hn⟩ := h
    by_cases hc : k = code
    · simp only [hidKeyboard_removeKey, if_pos hc]
      by_cases hk : k = 0
      · subst hk
        simp only [KeysPacked, if_pos rfl] at hp
        have hall : ∀ x ∈ rest ++ [0], x = 0 := by
          intro x hx
          rcases List.mem_append.1 hx with hx | hx
          · exact hp x hx
          · simpa using hx
        exact ⟨keysPacked_of_all_zero hall, by simp [filter_all_zero hall]⟩
      · simp only [KeysPacked, if_neg hk] at hp
        simp only [List.filter, (by simpa using hk : (!(k == 0)) = true)] at hn
        obtain ⟨_, hn1⟩ := List.nodup_cons.1 hn
        refine ⟨keysPacked_append_zero hp, ?_⟩
        simpa [List.filter_append] using hn1
    · simp only [hidKeyboard_removeKey, if_neg hc]
      by_cases hk : k = 0
      · subst hk
        simp only [KeysPacked, if_pos rfl] at hp
        have hcn : code ∉ rest := by
          intro hm
          have := hp code hm
          exact hc this.symm
        rw [removeKey_of_not_mem hcn]
        exact ⟨by simpa [KeysPacked] using hp, hn⟩
      · simp only [KeysPacked, if_neg hk] at hp
        simp only [List.filter, (by simpa using hk : (!(k == 0)) = true)] at hn
        obtain ⟨hk1, hn1⟩ := List.nodup_cons.1 hn
        obtain ⟨hp2, hn2⟩ := ih ⟨hp, hn1⟩
        refine ⟨by simpa [KeysPacked, hk] using hp2, ?_⟩
        simp only [List.filter, (by simpa using hk : (!(k == 0)) = true)]
        refine List.nodup_cons.2 ⟨fun hmem => ?_, hn2⟩
        have := List.mem_of_mem_filter hmem
        rcases mem_removeKey this with hm | hm
        · exact hk1 (List.mem_filter.2 ⟨hm, by simpa using hk⟩)
        · exact hk hm

theorem addKey_full {l : List Nat} {code : Nat} (h : ∀ k ∈ l, k ≠ 0) :
    hidKeyboard_addKey l code = l := by
  induction l with
  | nil => rfl
  | cons k rest ih =>
    have hk : k ≠ 0 := h k (List.mem_cons_self _ _)
    by_cases hc : k = code
    · simp [hidKeyboard_addKey, hk, hc]
    · simp only [hidKeyboard_addKey, if_neg hk, if_neg hc]
      exact congrArg _ (ih fun x hx => h x (List.mem_cons_of_mem _ hx))

/-- C8: starting from the all-zero 6-byte key array, every sequence of
`set_key(code, 1)` / `set_key(code, 0)` operations keeps the array a
contiguous left-packed set with no duplicate non-zero entry, and a press on
an array with no empty slot is ignored (6-key rollover). -/
theorem hidKeyboard_SetKey_invariant (ops : List (Nat × Nat)) :
    KeysInv (ops.foldl (fun ks op => hidKeyboard_SetKey ks op.1 op.2)
      (List.replicate 6 0)) ∧
    ∀ ks code, (∀ k ∈ ks, k ≠ 0) → hidKeyboard_SetKey ks code 1 = ks := by
  constructor
  · have hstep : ∀ (l : List (Nat × Nat)) (ks : List Nat), KeysInv ks →
        KeysInv (l.foldl (fun ks op => hidKeyboard_SetKey ks op.1 op.2) ks) := by
      intro l
      induction l with
      | nil => exact fun ks h => h
      | cons op rest ih =>
        intro ks h
        refine ih _ ?_
        unfold hidKeyboard_SetKey
        by_cases hv : op.2 ≠ 0
        · simpa [hv] using keysInv_addKey h
        · simpa [hv] using keysInv_removeKey h
    refine hstep ops _ ⟨?_, ?_⟩
    · exact keysPacked_of_all_zero (by simp)
    · simp [filter_all_zero (l := List.replicate 6 0) (by simp)]
  · intro ks code h
    simpa [hidKeyboard_SetKey] using addKey_full h

/-- Witness for C8 at concrete inputs: the press sequence a, b, a-release on
the empty array, and a seventh press on the full array `[4,5,6,7,8,9]`. -/
theorem hidKeyboard_SetKey_invariant_witness :
    KeysInv ([((4 : Nat), (1 : Nat)), (5, 1), (4, 0)].foldl
      (fun ks op => hidKeyboard_SetKey ks op.1 op.2) (List.replicate 6 0)) ∧
    hidKeyboard_SetKey [4, 5, 6, 7, 8, 9] 10 1 = [4, 5, 6, 7, 8, 9] :=
  ⟨(hidKeyboard_SetKey_invariant [(4, 1), (5, 1), (4, 0)]).1,
   (hidKeyboard_SetKey_invariant []).2 [4, 5, 6, 7, 8, 9] 10 (by decide)⟩

/-! ## C2 — `USBHID_fetchReport` / `get_report_buffer`,
`src/drivers/hid/src/hid_parser.c:392` and `:682`.

The double report buffer has size `2 * report_len`; `report_buffer_last_offset`
selects one half.  `USBHID_fetchReport` reads the incoming report **into**
`get_report_buffer(dev, true)` (the half currently named by the offset) and
only then flips the offset, so after the flip the freshly fetched report is
the half returned by `isLast = false` and `isLast = true` names the other
half. -/

structure USBHID_Device where
  report_len : Nat
  report_buffer_last_offset : Nat
  report_buffer : Nat → Nat

/-- `get_report_buffer` as the byte offset it returns into the double
buffer. -/
def get_report_buffer (d : USBHID_Device) (isLast : Bool) : Nat :=
  if isLast then d.report_buffer_last_offset
  else if d.report_buffer_last_offset ≠ 0 then 0 else d.report_len

/-- `memcpy`-style write of `len` bytes of report `r` at offset `off`
(the `usbhid_read` of the fetched packet into the selected half). -/
def writeBytes (buf : Nat → Nat) (off : Nat) (r : Nat → Nat) (len : Nat) :
    Nat → Nat :=
  fun i => if off ≤ i ∧ i < off + len then r (i - off) else buf i

/-- The successful path of `USBHID_fetchReport`: the incoming report is
stored at `get_report_buffer(dev, true)` and then the last-offset toggle
flips. -/
def USBHID_fetchReport (d : USBHID_Device) (r : Nat → Nat) : USBHID_Device :=
  { report_len := d.report_len
    report_buffer_last_offset :=
      if d.report_buffer_last_offset ≠ 0 then 0 else d.report_len
    report_buffer :=
      writeBytes d.report_buffer (get_report_buffer d true) r d.report_len }

/-- A freshly allocated device (`USBHID_allocReportBuffer`): zeroed double
buffer, last-offset 0. -/
def allocDevice (len : Nat) : USBHID_Device :=
  { report_len := len, report_buffer_last_offset := 0,
    report_buffer := fun _ => 0 }

/-- The buffer state invariant: the last-offset is always 0 or
`report_len`. -/
def DevInv (L : Nat) (d : USBHID_Device) : Prop :=
  d.report_len = L ∧
  (d.report_buffer_last_offset = 0 ∨ d.report_buffer_last_offset = L)

theorem devInv_fetch {L : Nat} {d : USBHID_Device} (r : Nat → Nat)
    (h : DevInv L d) : DevInv L (USBHID_fetchReport d r) := by
  obtain ⟨h1, h2⟩ := h
  refine ⟨h1, ?_⟩
  rcases h2 with h2 | h2 <;>
    simp only [USBHID_fetchReport, h2] <;> by_cases hL : L = 0 <;> simp [hL, h1]

theorem devInv_foldl {L : Nat} {d : USBHID_Device} (rs : List (Nat → Nat))
    (h : DevInv L d) : DevInv L (rs.foldl USBHID_fetchReport d) := by
  induction rs generalizing d with
  | nil => exact h
  | cons r rest ih => exact ih (devInv_fetch r h)

theorem fetch_current_is_new {L : Nat} {d : USBHID_Device} (r : Nat → Nat)
    (h : DevInv L d) (hL : 0 < L) :
    ∀ j < L, (USBHID_fetchReport d r).report_buffer
      (get_report_buffer (USBHID_fetchReport d r) false + j) = r j := by
  intro j hj
  obtain ⟨h1, h2⟩ := h
  rcases h2 with h2 | h2 <;>
    simp [USBHID_fetchReport, get_report_buffer, writeBytes, h1, h2,
          hj, Nat.ne_of_gt hL, Nat.le_add_right]

/-- Counterexample to C2 as stated: one successful fetch of the 1-byte
report `[5]` on a freshly allocated device; the `isLast = true` accessor
then names the zeroed half, not the just-fetched report, which sits in the
`isLast = false` half. -/
theorem getReportBuffer_last_misses_latest :
    (USBHID_fetchReport (allocDevice 1) (fun _ => 5)).report_buffer
      (get_report_buffer (USBHID_fetchReport (allocDevice 1) (fun _ => 5))
        true) ≠ 5 ∧
    (USBHID_fetchReport (allocDevice 1) (fun _ => 5)).report_buffer
      (get_report_buffer (USBHID_fetchReport (allocDevice 1) (fun _ => 5))
        false) = 5 := by
  constructor
  · simp [USBHID_fetchReport, allocDevice, get_report_buffer, writeBytes]
  · simp [USBHID_fetchReport, allocDevice, get_report_buffer, writeBytes]

/-- C2 (amended): after `k ≥ 1` successful fetches, the **current** accessor
(`isLast = false`) returns the `k`-th (most recently fetched) report, and the
**last** accessor (`isLast = true`) returns the other half of the double
buffer — a slot that does not alias it (the next fetch's write target). -/
theorem fetchReport_current_accessor (L : Nat) (d : USBHID_Device)
    (rs : List (Nat → Nat)) (r : Nat → Nat) (h : DevInv L d) (hL : 0 < L) :
    (∀ j < L,
      ((rs ++ [r]).foldl USBHID_fetchReport d).report_buffer
        (get_report_buffer ((rs ++ [r]).foldl USBHID_fetchReport d) false + j)
        = r j) ∧
    get_report_buffer ((rs ++ [r]).foldl USBHID_fetchReport d) true ≠
      get_report_buffer ((rs ++ [r]).foldl USBHID_fetchReport d) false := by
  rw [List.foldl_append]
  have hinv := devInv_foldl rs h
  constructor
  · exact fetch_current_is_new r hinv hL
  · obtain ⟨h1, h2⟩ := devInv_fetch r hinv
    rcases h2 with h2 | h2 <;>
      simp [get_report_buffer, h2, h1, Nat.ne_of_gt hL, Nat.ne_of_lt hL]

/-- Witness for C2 (amended) after two fetches on a 2-byte device. -/
theorem fetchReport_current_accessor_witness :
    (∀ j < 2,
      (([fun _ => 3] ++ [fun _ => 7]).foldl USBHID_fetchReport
        (allocDevice 2)).report_buffer
        (get_report_buffer
          (([fun _ => 3] ++ [fun _ => 7]).foldl USBHID_fetchReport
            (allocDevice 2)) false + j) = 7) ∧
    get_report_buffer
      (([fun _ => 3] ++ [fun _ => 7]).foldl USBHID_fetchReport
        (allocDevice 2)) true ≠
      get_report_buffer
        (([fun _ => 3] ++ [fun _ => 7]).foldl USBHID_fetchReport
          (allocDevice 2)) false :=
  fetchReport_current_accessor 2 (allocDevice 2) [fun _ => 3] (fun _ => 7)
    ⟨rfl, Or.inl rfl⟩ (by decide)

/-! ## C9 — `hidMouse_SetOrientation` / `hidMouse_GetOrientation`,
`src/drivers/hid/src/hid_mouse.c:342` and `:240`.

A located report field (`struct HID_DataDescriptor_t`) and the mouse state
(`struct HID_Mouse_t`).  The report buffer the accessors operate on is the
slot returned by `USBHID_getReportBuffer`, modelled as a byte function. -/

structure HID_DataDescriptor where
  logical_minimum : Int
  logical_maximum : Int
  size : Nat
  count : Nat
  report_buf_off : Nat

structure HID_Mouse where
  has_report_id_declared : Bool
  report_id_offset : Nat
  has_wheel : Bool
  button : HID_DataDescriptor
  orientation : HID_DataDescriptor
  wheel : HID_DataDescriptor

/-- `hidMouse_GetOrientation` on a report buffer; `none` models the
`PARAM_INVALID` / `ERROR` returns.  Axis 2 with `has_wheel` set is routed to
the wheel field (widths 1 and 2 signed, anything else reads 0). -/
def hidMouse_GetOrientation (m : HID_Mouse) (buf : Nat → Nat) (axisNum : Nat) :
    Option Int :=
  if axisNum = 2 ∧ m.has_wheel then
    let bs := m.wheel.size / 8
    if bs = 1 then some (toSigned 8 (byteAt buf m.wheel.report_buf_off))
    else if bs = 2 then some (toSigned 16 (leRead buf m.wheel.report_buf_off 2))
    else some 0
  else if m.orientation.count ≤ axisNum then none
  else
    let off := m.orientation.report_buf_off
    let bs := m.orientation.size / 8
    if bs = 0 then none
    else if bs = 1 then some (toSigned 8 (byteAt buf (off + axisNum)))
    else if bs = 2 then some (toSigned 16 (leRead buf (off + axisNum * 2) 2))
    else if bs = 4 then some (toSigned 32 (leRead buf (off + axisNum * 4) 4))
    else none

/-- `hidMouse_SetOrientation`: little-endian signed store with truncation to
the declared width. -/
def hidMouse_SetOrientation (m : HID_Mouse) (buf : Nat → Nat) (axisNum : Nat)
    (value : Int) : Option (Nat → Nat) :=
  if m.orientation.count ≤ axisNum then none
  else
    let off := m.orientation.report_buf_off
    let bs := m.orientation.size / 8
    if bs = 0 then none
    else if bs = 1 then
      some (leWrite buf (off + axisNum) (value % 2 ^ 8).toNat 1)
    else if bs = 2 then
      some (leWrite buf (off + axisNum * 2) (value % 2 ^ 16).toNat 2)
    else if bs = 4 then
      some (leWrite buf (off + axisNum * 4) (value % 2 ^ 32).toNat 4)
    else none

theorem leWrite_lt {buf : Nat → Nat} {off i : Nat} (v : Nat) (n : Nat)
    (h : i < off) : leWrite buf off v n i = buf i := by
  induction n generalizing buf off v with
  | zero => rfl
  | succ n ih =>
    simp only [leWrite]
    rw [ih (v / 256) (Nat.lt_succ_of_lt h)]
    simp [Nat.ne_of_lt h]

theorem leRead_leWrite (buf : Nat → Nat) (off v : Nat) (n : Nat) :
    leRead (leWrite buf off v n) off n = v % 256 ^ n := by
  induction n generalizing buf off v with
  | zero => simp [leRead, leWrite, Nat.mod_one]
  | succ n ih =>
    simp only [leRead, leWrite, byteAt]
    rw [leWrite_lt (v / 256) n (Nat.lt_succ_self off), ih]
    rw [show (if off = off then v % 256 else buf off) = v % 256 from
      if_pos rfl]
    rw [Nat.mod_mod_of_dvd v (dvd_refl 256),
      show (256 : Nat) ^ (n + 1) = 256 * 256 ^ n by ring, Nat.mod_mul]

/-- C9: writing `v` to an orientation axis of declared width 8, 16 or 32
bits and reading it back returns the sign-extended truncation of `v` to that
width — hence `v` itself whenever `v` is representable in the width.
The axis must lie inside the declared count and (for axis 2) not be aliased
by the separately-stored wheel field, which `get` checks first. -/
theorem hidMouse_orientation_roundtrip (m : HID_Mouse) (buf : Nat → Nat)
    (axisNum : Nat) (v : Int)
    (hsz : m.orientation.size = 8 ∨ m.orientation.size = 16 ∨
      m.orientation.size = 32)
    (hax : axisNum < m.orientation.count)
    (hw : ¬(axisNum = 2 ∧ m.has_wheel)) :
    ∃ buf', hidMouse_SetOrientation m buf axisNum v = some buf' ∧
      hidMouse_GetOrientation m buf' axisNum =
        some (signedTrunc m.orientation.size v) ∧
      (-(2 ^ (m.orientation.size - 1)) ≤ v → v < 2 ^ (m.orientation.size - 1) →
        signedTrunc m.orientation.size v = v) := by
  have hax' : ¬ m.orientation.count ≤ axisNum := Nat.not_le.2 hax
  rcases hsz with hsz | hsz | hsz
  · refine ⟨leWrite buf (m.orientation.report_buf_off + axisNum)
      (v % 2 ^ 8).toNat 1, ?_, ?_, ?_⟩
    · simp [hidMouse_SetOrientation, hax', hsz]
    · simp only [hidMouse_GetOrientation, if_neg hw, if_neg hax', hsz]
      norm_num
      simp only [leWrite, byteAt, signedTrunc]
      norm_num
      simp only [toSigned]
      norm_num
    · intro h1 h2
      rw [hsz] at *
      simp only [signedTrunc, toSigned] at *
      norm_num at *
      omega
  · refine ⟨leWrite buf (m.orientation.report_buf_off + axisNum * 2)
      (v % 2 ^ 16).toNat 2, ?_, ?_, ?_⟩
    · simp [hidMouse_SetOrientation, hax', hsz]
    · simp only [hidMouse_GetOrientation, if_neg hw, if_neg hax', hsz]
      norm_num
      rw [leRead_leWrite]
      simp only [signedTrunc, toSigned]
      norm_num
    · intro h1 h2
      rw [hsz] at *
      simp only [signedTrunc, toSigned] at *
      norm_num at *
      omega
  · refine ⟨leWrite buf (m.orientation.report_buf_off + axisNum * 4)
      (v % 2 ^ 32).toNat 4, ?_, ?_, ?_⟩
    · simp [hidMouse_SetOrientation, hax', hsz]
    · simp only [hidMouse_GetOrientation, if_neg hw, if_neg hax', hsz]
      norm_num
      rw [leRead_leWrite]
      simp only [signedTrunc, toSigned]
      norm_num
    · intro h1 h2
      rw [hsz] at *
      simp only [signedTrunc, toSigned] at *
      norm_num at *
      omega

/-- A concrete 16-bit two-axis mouse used by witnesses. -/
def mouse16 : HID_Mouse :=
  { has_report_id_declared := false, report_id_offset := 0, has_wheel := false,
    button := ⟨0, 1, 1, 3, 0⟩, orientation := ⟨-32768, 32767, 16, 2, 1⟩,
    wheel := ⟨0, 0, 0, 0, 0⟩ }

/-- Witness for C9: on the 16-bit mouse, axis 0, the out-of-range value
40000 comes back as its sign-extended truncation -25536, and in-range values
come back unchanged. -/
theorem hidMouse_orientation_roundtrip_witness :
    (∃ buf', hidMouse_SetOrientation mouse16 (fun _ => 0) 0 40000 = some buf' ∧
      hidMouse_GetOrientation mouse16 buf' 0 =
        some (signedTrunc mouse16.orientation.size 40000) ∧
      (-(2 ^ (mouse16.orientation.size - 1)) ≤ (40000 : Int) →
        (40000 : Int) < 2 ^ (mouse16.orientation.size - 1) →
        signedTrunc mouse16.orientation.size 40000 = 40000)) ∧
    signedTrunc 16 40000 = -25536 ∧ signedTrunc 16 (-77) = -77 := by
  refine ⟨hidMouse_orientation_roundtrip mouse16 (fun _ => 0) 0 40000
    (by decide) (by decide) (by decide), by decide, by decide⟩

/-! ## C1 — `hidOutput_buildMouseReport`, `src/drivers/hid/src/hid_output.c:37`.

The function reads the current (`isLast = false`) report slot, which we pass
in as `buf`.  The normalized output is 6 bytes.  Note the source clamps only
the wheel value; the X/Y axes go through `sys_put_le16((uint16_t)value, ..)`,
a plain two's-complement truncation. -/

/-- `MOUSE_REPORTID_BYTE` (`hid_mouse.h`). -/
def MOUSE_REPORTID_BYTE : Nat := 0x01

/-- The button bit read by `hidMouse_GetButton` for button `n`
(`(pFieldBuff[n / 8] >> (n % 8)) & 1`). -/
def mouseButtonBit (m : HID_Mouse) (buf : Nat → Nat) (n : Nat) : Bool :=
  Nat.testBit (byteAt buf (m.button.report_buf_off + n / 8)) (n % 8)

/-- The button-accumulation loop of `hidOutput_buildMouseReport`
(`for i < 8 && i < count: buttons |= set ? (1 << i) : 0`); the source loop
runs while `i < 8 ∧ i < count`, which equals running `i` to 8 and guarding
the body with `i < count` since the guard is monotone. -/
def buttonsByteAux (m : HID_Mouse) (buf : Nat → Nat) : Nat → Nat
  | 0 => 0
  | i + 1 =>
    buttonsByteAux m buf i |||
      (if i < m.button.count ∧ mouseButtonBit m buf i then 2 ^ i else 0)

inductive MouseReportResult where
  | eagain
  | eio
  | report (bytes : List Nat)
deriving DecidableEq

/-- `hidOutput_buildMouseReport`.  The `eagain` arm is the Report-ID drop;
`eio` models a failed axis read.  X/Y are truncated to `uint16_t` and stored
little-endian; the wheel is clamped to `int8_t` and stored as its unsigned
byte. -/
def hidOutput_buildMouseReport (m : HID_Mouse) (buf : Nat → Nat) :
    MouseReportResult :=
  if m.has_report_id_declared = true ∧ m.report_id_offset = 1 ∧
      byteAt buf 0 ≠ MOUSE_REPORTID_BYTE then
    .eagain
  else
    match hidMouse_GetOrientation m buf 0, hidMouse_GetOrientation m buf 1 with
    | some x, some y =>
      match (if m.has_wheel then hidMouse_GetOrientation m buf 2
             else some 0) with
      | some w0 =>
        let w : Int := if m.has_wheel then
            (if w0 > 127 then 127 else if w0 < -128 then -128 else w0)
          else 0
        .report [buttonsByteAux m buf 8,
                 (x % 2 ^ 16).toNat % 256, (x % 2 ^ 16).toNat / 256,
                 (y % 2 ^ 16).toNat % 256, (y % 2 ^ 16).toNat / 256,
                 (w % 2 ^ 8).toNat]
      | none => .eio
    | _, _ => .eio

theorem buttonsByteAux_testBit (m : HID_Mouse) (buf : Nat → Nat) (n j : Nat) :
    Nat.testBit (buttonsByteAux m buf n) j =
      (decide (j < n) && decide (j < m.button.count) && mouseButtonBit m buf j)
    := by
  induction n with
  | zero => simp [buttonsByteAux]
  | succ n ih =>
    simp only [buttonsByteAux, Nat.testBit_or, ih]
    rcases Nat.lt_trichotomy j n with hj | hj | hj
    · have e1 : j < n + 1 := Nat.lt_succ_of_lt hj
      by_cases hc : n < m.button.count ∧ mouseButtonBit m buf n
      · rw [if_pos hc]
        simp [Nat.testBit_two_pow_of_ne (Nat.ne_of_gt hj), hj, e1]
      · rw [if_neg hc]
        simp [hj, e1, Nat.zero_testBit]
    · subst hj
      by_cases hc : j < m.button.count ∧ mouseButtonBit m buf j
      · rw [if_pos hc]
        simp [Nat.testBit_two_pow_self, hc.1, hc.2, Nat.lt_irrefl,
          Nat.lt_succ_self]
      · rw [if_neg hc]
        by_cases hcc : j < m.button.count
        · have hbit : mouseButtonBit m buf j = false := by
            cases hb : mouseButtonBit m buf j
            · rfl
            · exact absurd ⟨hcc, hb⟩ hc
          simp [Nat.lt_irrefl, Nat.lt_succ_self, hcc, hbit, Nat.zero_testBit]
        · simp [Nat.lt_irrefl, Nat.lt_succ_self, hcc, Nat.zero_testBit]
    · have e1 : ¬ j < n := Nat.lt_asymm hj
      have e2 : ¬ j < n + 1 := Nat.not_lt.2 (Nat.succ_le_of_lt hj)
      by_cases hc : n < m.button.count ∧ mouseButtonBit m buf n
      · rw [if_pos hc]
        simp [Nat.testBit_two_pow_of_ne (Nat.ne_of_lt hj), e1, e2]
      · rw [if_neg hc]
        simp [e1, e2, Nat.zero_testBit]

/-- The concrete 32-bit mouse and report used in the C1 counterexample:
X = 40000, outside `int16_t` range. -/
def mouse32 : HID_Mouse :=
  { has_report_id_declared := false, report_id_offset := 0, has_wheel := false,
    button := ⟨0, 1, 1, 3, 0⟩,
    orientation := ⟨-2147483648, 2147483647, 32, 2, 1⟩,
    wheel := ⟨0, 0, 0, 0, 0⟩ }

def report32buf : Nat → Nat :=
  fun i => [0, 0x40, 0x9C, 0, 0, 0, 0, 0, 0].getD i 0

/-- Counterexample to C1 as stated: on a 32-bit-axis mouse reporting
X = 40000, the output bytes 1-2 are the plain 16-bit truncation
`0x40 0x9C` (decoding to -25536), not the saturated `int16` value 32767
(`0xFF 0x7F`). -/
theorem buildMouseReport_no_saturation :
    hidMouse_GetOrientation mouse32 report32buf 0 = some 40000 ∧
    hidOutput_buildMouseReport mouse32 report32buf =
      .report [0, 0x40, 0x9C, 0, 0, 0] ∧
    toSigned 16 (0x40 + 256 * 0x9C) = -25536 ∧
    (-25536 : Int) ≠ 32767 := by
  refine ⟨by decide, by decide, by decide, by decide⟩

/-- C1 (amended): byte 0 carries the first `min(8, count)` button bits;
bytes 1-2 and 3-4 are the X and Y axis values **truncated** (two's
complement, not saturated) to little-endian `int16`; byte 5 is the wheel
value saturated to `int8` (0 when the mouse has no wheel); and when a
Report-ID prefix is in effect, any report whose byte 0 is not the movement
Report-ID yields no output report (`-EAGAIN`). -/
theorem hidOutput_buildMouseReport_spec (m : HID_Mouse) (buf : Nat → Nat) :
    (m.has_report_id_declared = true → m.report_id_offset = 1 →
      byteAt buf 0 ≠ MOUSE_REPORTID_BYTE →
      hidOutput_buildMouseReport m buf = .eagain) ∧
    (∀ x y,
      ¬(m.has_report_id_declared = true ∧ m.report_id_offset = 1 ∧
        byteAt buf 0 ≠ MOUSE_REPORTID_BYTE) →
      hidMouse_GetOrientation m buf 0 = some x →
      hidMouse_GetOrientation m buf 1 = some y →
      ∃ r, hidOutput_buildMouseReport m buf = .report r ∧ r.length = 6 ∧
        (∀ j, Nat.testBit (r.getD 0 0) j =
          (decide (j < 8) && decide (j < m.button.count) &&
            mouseButtonBit m buf j)) ∧
        toSigned 16 (r.getD 1 0 + 256 * r.getD 2 0) = signedTrunc 16 x ∧
        toSigned 16 (r.getD 3 0 + 256 * r.getD 4 0) = signedTrunc 16 y ∧
        (m.has_wheel = true → ∀ w, hidMouse_GetOrientation m buf 2 = some w →
          toSigned 8 (r.getD 5 0) = max (-128) (min 127 w)) ∧
        (m.has_wheel = false → r.getD 5 0 = 0)) := by
  constructor
  · intro h1 h2 h3
    simp [hidOutput_buildMouseReport, h1, h2, h3]
  · intro x y hdrop hx hy
    have hb16 : ∀ z : Int, toSigned 16 ((z % 2 ^ 16).toNat % 256 + 256 *
        ((z % 2 ^ 16).toNat / 256)) = signedTrunc 16 z := by
      intro z
      rw [Nat.mod_add_div]
      rfl
    cases hw : m.has_wheel with
    | false =>
      refine ⟨[buttonsByteAux m buf 8,
               (x % 2 ^ 16).toNat % 256, (x % 2 ^ 16).toNat / 256,
               (y % 2 ^ 16).toNat % 256, (y % 2 ^ 16).toNat / 256,
               ((0 : Int) % 2 ^ 8).toNat], ?_, rfl, ?_, ?_, ?_, ?_, ?_⟩
      · simp [hidOutput_buildMouseReport, if_neg hdrop, hx, hy, hw]
      · intro j
        simpa using buttonsByteAux_testBit m buf 8 j
      · simpa using hb16 x
      · simpa using hb16 y
      · intro hcontra
        exact Bool.noConfusion hcontra
      · intro _
        simp
    | true =>
      have hwheel : ∃ w0, hidMouse_GetOrientation m buf 2 = some w0 := by
        simp only [hidMouse_GetOrientation, hw, and_true, if_pos rfl]
        by_cases h1 : m.wheel.size / 8 = 1
        · exact ⟨toSigned 8 (byteAt buf m.wheel.report_buf_off), by simp [h1]⟩
        · by_cases h2 : m.wheel.size / 8 = 2
          · exact ⟨toSigned 16 (leRead buf m.wheel.report_buf_off 2),
              by simp [h1, h2]⟩
          · exact ⟨0, by simp [h1, h2]⟩
      obtain ⟨w0, hw0⟩ := hwheel
      refine ⟨[buttonsByteAux m buf 8,
               (x % 2 ^ 16).toNat % 256, (x % 2 ^ 16).toNat / 256,
               (y % 2 ^ 16).toNat % 256, (y % 2 ^ 16).toNat / 256,
               (((if w0 > 127 then (127 : Int) else if w0 < -128 then -128
                  else w0)) % 2 ^ 8).toNat], ?_, rfl, ?_, ?_, ?_, ?_, ?_⟩
      · simp [hidOutput_buildMouseReport, if_neg hdrop, hx, hy, hw, hw0]
      · intro j
        simpa using buttonsByteAux_testBit m buf 8 j
      · simpa using hb16 x
      · simpa using hb16 y
      · intro _ w hww
        rw [hw0] at hww
        have hwe : w0 = w := Option.some.inj hww
        subst hwe
        show toSigned 8 (((if w0 > 127 then (127 : Int)
          else if w0 < -128 then -128 else w0) % 2 ^ 8).toNat) = _
        by_cases h1 : w0 > 127
        · rw [if_pos h1, min_eq_left h1.le,
            max_eq_right (by norm_num : (-128 : Int) ≤ 127)]
          decide
        · by_cases h2 : w0 < -128
          · rw [if_neg h1, if_pos h2, min_eq_right (by omega : w0 ≤ 127),
              max_eq_left (by omega : w0 ≤ -128)]
            decide
          · rw [if_neg h1, if_neg h2, min_eq_right (by omega : w0 ≤ 127),
              max_eq_right (by omega : (-128 : Int) ≤ w0)]
            simp only [toSigned]
            norm_num
            omega
      · intro hcontra
        exact Bool.noConfusion hcontra

/-- Witness for C1 (amended): the 16-bit mouse with X = -2, Y = 3 in its
report buffer, and separately the drop branch on a Report-ID mismatch. -/
theorem hidOutput_buildMouseReport_spec_witness :
    (hidOutput_buildMouseReport
      { mouse16 with has_report_id_declared := true, report_id_offset := 1 }
      (fun i => [7, 0, 0, 0, 0].getD i 0) = .eagain) ∧
    (∃ r, hidOutput_buildMouseReport mouse16
        (fun i => [0, 0xFE, 0xFF, 3, 0].getD i 0) = .report r ∧
      r.length = 6 ∧
      (∀ j, Nat.testBit (r.getD 0 0) j =
        (decide (j < 8) && decide (j < mouse16.button.count) &&
          mouseButtonBit mouse16 (fun i => [0, 0xFE, 0xFF, 3, 0].getD i 0) j)) ∧
      toSigned 16 (r.getD 1 0 + 256 * r.getD 2 0) = signedTrunc 16 (-2) ∧
      toSigned 16 (r.getD 3 0 + 256 * r.getD 4 0) = signedTrunc 16 3 ∧
      (mouse16.has_wheel = true → ∀ w,
        hidMouse_GetOrientation mouse16
          (fun i => [0, 0xFE, 0xFF, 3, 0].getD i 0) 2 = some w →
        toSigned 8 (r.getD 5 0) = max (-128) (min 127 w)) ∧
      (mouse16.has_wheel = false → r.getD 5 0 = 0)) :=
  ⟨(hidOutput_buildMouseReport_spec
      { mouse16 with has_report_id_declared := true, report_id_offset := 1 }
      (fun i => [7, 0, 0, 0, 0].getD i 0)).1 rfl rfl (by decide),
   (hidOutput_buildMouseReport_spec mouse16
      (fun i => [0, 0xFE, 0xFF, 3, 0].getD i 0)).2 (-2) 3 (by decide)
      (by decide) (by decide)⟩

/-! ## C4 — `ch375_hostBulkTransfer`, `src/drivers/ch37x/src/ch375_host.c:692`.

The chip is the environment: each loop iteration issues exactly one token and
receives one chip response, so the loop is structural recursion on the list
of responses.  Status-byte constants are from `ch376s.h` (`0x14` etc.,
`PID2STATUS(x) = x | 0x20`) and the standard USB PID codes used by the
source (`USB_PID_NAK = 0x0A`, `USB_PID_STALL = 0x0E`). -/

def USB_INT_SUCCESS : Nat := 0x14
def USB_INT_DISCONNECT : Nat := 0x16
def PID2STATUS (pid : Nat) : Nat := pid ||| 0x20
def USB_PID_NAK : Nat := 0x0A
def USB_PID_STALL : Nat := 0x0E

/-- One chip response to a token (or to the block write preceding an OUT
token).  `fail` = the `ch37x_writeBlockData` / `ch37x_sendToken` call itself
failed; `st status rd` = the token completed with this status byte, `rd`
being the result of `ch37x_readBlockData` issued on an IN success
(`none` = the read failed, `some n` = `n` bytes delivered; the chip never
delivers more than the requested length, see `ch375_readBlockData`'s
`offset < len` loop bound). -/
inductive ChipResp where
  | fail
  | st (status : Nat) (rd : Option Nat)

/-- Result of a bulk/interrupt transfer.  Every variant carries the
endpoint's final `data_toggle` so that toggle discipline is observable. -/
inductive BulkResult where
  | success (actual : Nat) (tog : Bool)
  | timeout (actual : Nat) (tog : Bool)
  | stall (tog : Bool)
  | disconnect (tog : Bool)
  | ioError (tog : Bool)
deriving DecidableEq

/-- The `while (resiLen > 0)` loop of `ch375_hostBulkTransfer`.  `isIn`
selects the `EP_IN(ep)` branch; `maxPacket` is `endpoint->max_packet`;
`resi`/`offset`/`tog`/`timeout` are `resiLen`, `offset`,
`endpoint->data_toggle` and the caller's `timeout`.  `none` means the
response list ran out before the loop finished. -/
def ch375_hostBulkTransfer (isIn : Bool) (maxPacket : Nat) :
    List ChipResp → Nat → Nat → Bool → Nat → Option BulkResult
  | _, 0, offset, tog, _ => some (.success offset tog)
  | [], _ + 1, _, _, _ => none
  | ev :: evs, resi + 1, offset, tog, timeout =>
    let len := min (resi + 1) maxPacket
    match ev with
    | .fail => some (.ioError tog)
    | .st status rd =>
      if status = USB_INT_SUCCESS then
        if isIn then
          match rd with
          | none => some (.ioError tog)
          | some n =>
            let actualLen := min n len
            ch375_hostBulkTransfer isIn maxPacket evs (resi + 1 - actualLen)
              (offset + actualLen) (!tog) timeout
        else
          ch375_hostBulkTransfer isIn maxPacket evs (resi + 1 - len)
            (offset + len) (!tog) timeout
      else if status = PID2STATUS USB_PID_NAK then
        if timeout = 0 then some (.timeout offset tog)
        else ch375_hostBulkTransfer isIn maxPacket evs (resi + 1) offset tog
          (timeout - 1)
      else if status = USB_INT_DISCONNECT then some (.disconnect tog)
      else if status = PID2STATUS USB_PID_STALL then some (.stall tog)
      else some (.ioError tog)

/-- The final endpoint toggle recorded in a bulk result. -/
def BulkResult.toggle : BulkResult → Bool
  | .success _ t => t
  | .timeout _ t => t
  | .stall t => t
  | .disconnect t => t
  | .ioError t => t

theorem bulkTransfer_no_success_toggle (isIn : Bool) (maxPacket : Nat)
    (evs : List ChipResp) :
    ∀ resi offset tog timeout r,
      (∀ rd, ChipResp.st USB_INT_SUCCESS rd ∉ evs) →
      ch375_hostBulkTransfer isIn maxPacket evs resi offset tog timeout =
        some r →
      r.toggle = tog := by
  induction evs with
  | nil =>
    intro resi offset tog timeout r _ hr
    match resi with
    | 0 =>
      simp only [ch375_hostBulkTransfer, Option.some.injEq] at hr
      rw [← hr]
      rfl
    | _ + 1 => exact absurd hr (by simp [ch375_hostBulkTransfer])
  | cons ev evs ih =>
    intro resi offset tog timeout r hns hr
    match resi with
    | 0 =>
      simp only [ch375_hostBulkTransfer, Option.some.injEq] at hr
      rw [← hr]
      rfl
    | resi + 1 =>
      have hns' : ∀ rd, ChipResp.st USB_INT_SUCCESS rd ∉ evs :=
        fun rd h => hns rd (List.mem_cons_of_mem _ h)
      match ev with
      | .fail =>
        simp only [ch375_hostBulkTransfer, Option.some.injEq] at hr
        rw [← hr]
        rfl
      | .st status rd =>
        have hstat : status ≠ USB_INT_SUCCESS := by
          intro h
          subst h
          exact hns rd (List.mem_cons_self _ _)
        simp only [ch375_hostBulkTransfer, if_neg hstat] at hr
        by_cases hnak : status = PID2STATUS USB_PID_NAK
        · rw [if_pos hnak] at hr
          by_cases ht : timeout = 0
          · rw [if_pos ht] at hr
            rw [← Option.some.inj hr]
            rfl
          · rw [if_neg ht] at hr
            exact ih _ _ _ _ _ hns' hr
        · rw [if_neg hnak] at hr
          by_cases hd : status = USB_INT_DISCONNECT
          · rw [if_pos hd] at hr
            rw [← Option.some.inj hr]
            rfl
          · rw [if_neg hd] at hr
            by_cases hs : status = PID2STATUS USB_PID_STALL
            · rw [if_pos hs] at hr
              rw [← Option.some.inj hr]
              rfl
            · rw [if_neg hs] at hr
              rw [← Option.some.inj hr]
              rfl

/-- C4: on a NAK status the endpoint toggle is left unchanged and the
caller's `timeout_ms` is decremented by one before the retry (the 1 ms
sleep is real time, outside the model); once `timeout_ms` is 0, a NAK makes
the transfer return `Timeout` carrying the partial byte count transferred so
far; and the toggle recorded in any outcome differs from the initial toggle
only if the chip reported at least one packet success. -/
theorem ch375_hostBulkTransfer_nak_spec (isIn : Bool) (maxPacket : Nat)
    (evs : List ChipResp) (rd : Option Nat) (resi offset : Nat) (tog : Bool)
    (timeout : Nat) :
    (0 < resi → 0 < timeout →
      ch375_hostBulkTransfer isIn maxPacket
        (.st (PID2STATUS USB_PID_NAK) rd :: evs) resi offset tog timeout =
      ch375_hostBulkTransfer isIn maxPacket evs resi offset tog
        (timeout - 1)) ∧
    (0 < resi →
      ch375_hostBulkTransfer isIn maxPacket
        (.st (PID2STATUS USB_PID_NAK) rd :: evs) resi offset tog 0 =
      some (.timeout offset tog)) ∧
    (∀ r, (∀ rd', ChipResp.st USB_INT_SUCCESS rd' ∉ evs) →
      ch375_hostBulkTransfer isIn maxPacket evs resi offset tog timeout =
        some r →
      r.toggle = tog) := by
  refine ⟨?_, ?_, fun r => bulkTransfer_no_success_toggle isIn maxPacket evs
    resi offset tog timeout r⟩
  · intro hresi ht
    match resi, hresi with
    | resi + 1, _ =>
      simp [ch375_hostBulkTransfer, PID2STATUS, USB_PID_NAK, USB_INT_SUCCESS,
        Nat.ne_of_gt ht]
  · intro hresi
    match resi, hresi with
    | resi + 1, _ =>
      simp [ch375_hostBulkTransfer, PID2STATUS, USB_PID_NAK, USB_INT_SUCCESS]

/-- Witness for C4: a NAK burns one unit of the 2-unit budget, a NAK at
budget 0 yields `Timeout` with the 0-byte partial count, and an all-NAK run
leaves the toggle at its initial value. -/
theorem ch375_hostBulkTransfer_nak_spec_witness :
    (ch375_hostBulkTransfer true 64 [.st (PID2STATUS USB_PID_NAK) none,
        .st (PID2STATUS USB_PID_NAK) none] 4 0 false 2 =
      ch375_hostBulkTransfer true 64 [.st (PID2STATUS USB_PID_NAK) none] 4 0
        false 1) ∧
    (ch375_hostBulkTransfer true 64 [.st (PID2STATUS USB_PID_NAK) none] 4 0
        false 0 = some (.timeout 0 false)) ∧
    BulkResult.toggle (.timeout 0 false) = false :=
  ⟨(ch375_hostBulkTransfer_nak_spec true 64
      [.st (PID2STATUS USB_PID_NAK) none] none 4 0 false 2).1
      (by decide) (by decide),
   (ch375_hostBulkTransfer_nak_spec true 64 [] none 4 0 false 0).2.1
      (by decide),
   (ch375_hostBulkTransfer_nak_spec true 64
      [.st (PID2STATUS USB_PID_NAK) none] none 4 0 false 0).2.2
      (.timeout 0 false)
      (by
        intro rd' h
        rcases List.mem_cons.1 h with h | h
        · have h1 : USB_INT_SUCCESS = PID2STATUS USB_PID_NAK := by
            injection h
          exact absurd h1 (by decide)
        · exact absurd h (List.not_mem_nil _))
      (by decide)⟩

/-! ## C5 — STATUS stage of `ch375_hostControlTransfer` (IN direction),
`src/drivers/ch37x/src/ch375_host.c:604`-`:673`.

Inputs: the byte count the DATA stage delivered (`totalReceived`), whether
the zero-length `ch37x_writeBlockData` succeeded, whether `ch37x_sendToken`
succeeded, and the status byte it returned. -/

inductive CtrlResult where
  | success (actual : Nat)
  | stall
  | disconnect
  | ioError
deriving DecidableEq

/-- The `SETUP_IN(reqType)` branch of the status stage: OUT zero-length
write, OUT token with toggle DATA1, then the status dispatch, each failure
downgraded to `Success` with the partial count when data was received. -/
def ctrl_status_stage_in (totalReceived : Nat) (writeOk tokenOk : Bool)
    (status : Nat) : CtrlResult :=
  if writeOk = false then
    if 0 < totalReceived then .success totalReceived else .ioError
  else if tokenOk = false then
    if 0 < totalReceived then .success totalReceived else .ioError
  else if status ≠ USB_INT_SUCCESS then
    if 0 < totalReceived then .success totalReceived
    else if status = USB_INT_DISCONNECT then .disconnect
    else if status = PID2STATUS USB_PID_STALL then .stall
    else .ioError
  else .success totalReceived

/-- C5: with at least one DATA byte received, any STATUS-stage failure
(write failure, token failure, or a non-success status byte) is downgraded
to `Success` reporting the partial count; with zero bytes received the
failure propagates (write/token failure as `IoError`, otherwise
`Disconnected` / `Stall` / `IoError` according to the status byte). -/
theorem ctrl_status_stage_in_spec (totalReceived : Nat)
    (writeOk tokenOk : Bool) (status : Nat) :
    (1 ≤ totalReceived →
      (writeOk = false ∨ tokenOk = false ∨ status ≠ USB_INT_SUCCESS) →
      ctrl_status_stage_in totalReceived writeOk tokenOk status =
        .success totalReceived) ∧
    (writeOk = true → tokenOk = true → status = USB_INT_SUCCESS →
      ctrl_status_stage_in totalReceived writeOk tokenOk status =
        .success totalReceived) ∧
    (writeOk = false →
      ctrl_status_stage_in 0 writeOk tokenOk status = .ioError) ∧
    (tokenOk = false →
      ctrl_status_stage_in 0 writeOk tokenOk status = .ioError) ∧
    (writeOk = true → tokenOk = true → status = USB_INT_DISCONNECT →
      ctrl_status_stage_in 0 writeOk tokenOk status = .disconnect) ∧
    (writeOk = true → tokenOk = true → status = PID2STATUS USB_PID_STALL →
      ctrl_status_stage_in 0 writeOk tokenOk status = .stall) ∧
    (writeOk = true → tokenOk = true → status ≠ USB_INT_SUCCESS →
      status ≠ USB_INT_DISCONNECT → status ≠ PID2STATUS USB_PID_STALL →
      ctrl_status_stage_in 0 writeOk tokenOk status = .ioError) := by
  refine ⟨?_, ?_, ?_, ?_, ?_, ?_, ?_⟩
  · intro htot hfail
    have hpos : 0 < totalReceived := htot
    rcases hfail with hf | hf | hf
    · simp [ctrl_status_stage_in, hf, hpos]
    · by_cases hw : writeOk = false <;>
        simp [ctrl_status_stage_in, hw, hf, hpos]
    · by_cases hw : writeOk = false
      · simp [ctrl_status_stage_in, hw, hpos]
      · by_cases ht : tokenOk = false <;>
          simp [ctrl_status_stage_in, hw, ht, hf, hpos]
  · intro hw ht hs
    simp [ctrl_status_stage_in, hw, ht, hs]
  · intro hw
    simp [ctrl_status_stage_in, hw]
  · intro ht
    by_cases hw : writeOk = false <;>
      simp [ctrl_status_stage_in, hw, ht]
  · intro hw ht hs
    simp [ctrl_status_stage_in, hw, ht, hs]
    decide
  · intro hw ht hs
    simp [ctrl_status_stage_in, hw, ht, hs]
    decide
  · intro hw ht h1 h2 h3
    simp [ctrl_status_stage_in, hw, ht, h1, h2, h3]

/-- Witness for C5: three DATA bytes then a NAK-status STATUS stage is
downgraded to success; zero bytes and a STALL status propagates `Stall`. -/
theorem ctrl_status_stage_in_spec_witness :
    ctrl_status_stage_in 3 true true (PID2STATUS USB_PID_NAK) = .success 3 ∧
    ctrl_status_stage_in 0 true true (PID2STATUS USB_PID_STALL) = .stall :=
  ⟨(ctrl_status_stage_in_spec 3 true true (PID2STATUS USB_PID_NAK)).1
      (by decide) (Or.inr (Or.inr (by decide))),
   (ctrl_status_stage_in_spec 0 true true
      (PID2STATUS USB_PID_STALL)).2.2.2.2.2.1 rfl rfl rfl⟩

/-! ## C7 — `parse_config_descriptor` / `parse_interface_descriptor` /
`parse_endpoint_descriptor`, `src/drivers/ch37x/src/ch375_host.c:919`-`:986`.

The interface and endpoint tables are fixed C arrays of size
`USB_MAX_INTERFACES = 4` and `USB_MAX_ENDPOINTS = 4`
(`ch375_host.h:48`).  The source indexes them with
`interfaces[interface_count]`, `interfaces[interface_count - 1]` and
`endpoints[endpoint_count]` without any bound check; the embedding makes
each such indexing explicit and reports `oobWrite` exactly when the C code
would write outside the array (including `interface_count - 1` underflowing
to `-1` when an ENDPOINT item precedes any INTERFACE item). -/

def USB_MAX_INTERFACES : Nat := 4
def USB_MAX_ENDPOINTS : Nat := 4
def USB_DESC_INTERFACE : Nat := 4
def USB_DESC_ENDPOINT : Nat := 5

structure USB_Endpoint where
  ep_addr : Nat
  data_toggle : Bool
  max_packet : Nat
  attributes : Nat
  interval : Nat
deriving DecidableEq

structure USB_Interface where
  interface_number : Nat
  interface_class : Nat
  interface_subclass : Nat
  interface_protocol : Nat
  endpoints : List USB_Endpoint
deriving DecidableEq

structure USB_DeviceTables where
  interfaces : List USB_Interface
deriving DecidableEq

inductive WalkErr where
  | ioError
  | oobWrite
deriving DecidableEq

/-- `parse_interface_descriptor`: writes `interfaces[interface_count]` and
increments the count; the write is out of bounds once 4 slots are filled. -/
def parse_interface_descriptor (dev : USB_DeviceTables) (item : List Nat) :
    Except WalkErr USB_DeviceTables :=
  if dev.interfaces.length < USB_MAX_INTERFACES then
    .ok ⟨dev.interfaces ++
      [⟨item.getD 2 0, item.getD 5 0, item.getD 6 0, item.getD 7 0, []⟩]⟩
  else .error .oobWrite

/-- `parse_endpoint_descriptor` applied to
`&interfaces[interface_count - 1]`: out of bounds when no interface slot is
open (`interface_count - 1` is `-1`) or when the target interface already
has 4 endpoints. -/
def parse_endpoint_descriptor (dev : USB_DeviceTables) (item : List Nat) :
    Except WalkErr USB_DeviceTables :=
  match dev.interfaces.getLast? with
  | none => .error .oobWrite
  | some intf =>
    if intf.endpoints.length < USB_MAX_ENDPOINTS then
      .ok ⟨dev.interfaces.dropLast ++
        [{ intf with endpoints := intf.endpoints ++
            [⟨item.getD 2 0, false, item.getD 4 0 + 256 * item.getD 5 0,
              item.getD 3 0, item.getD 6 0⟩] }]⟩
    else .error .oobWrite

/-- The `while (pDescStart + sizeof(struct usb_desc_header) <= pDescEnd)`
loop of `parse_config_descriptor`.  Each iteration consumes
`bLength ≥ 1` bytes, so `fuel := bytes.length` at the top level never runs
out; running out of fuel exits like the loop condition. -/
def parse_config_walk (fuel : Nat) (bytes : List Nat)
    (dev : USB_DeviceTables) : Except WalkErr USB_DeviceTables :=
  match fuel with
  | 0 => .ok dev
  | fuel + 1 =>
    if bytes.length < 2 then .ok dev
    else
      let bLength := bytes.getD 0 0
      let bType := bytes.getD 1 0
      if bLength = 0 then .error .ioError
      else if bytes.length < bLength then .error .ioError
      else
        let step : Except WalkErr USB_DeviceTables :=
          if bType = USB_DESC_INTERFACE then
            parse_interface_descriptor dev (bytes.take bLength)
          else if bType = USB_DESC_ENDPOINT then
            parse_endpoint_descriptor dev (bytes.take bLength)
          else .ok dev
        match step with
        | .error e => .error e
        | .ok dev' => parse_config_walk fuel (bytes.drop bLength) dev'

/-- `parse_config_descriptor` on the raw configuration-descriptor bytes. -/
def parse_config_descriptor (bytes : List Nat) :
    Except WalkErr USB_DeviceTables :=
  parse_config_walk bytes.length bytes ⟨[]⟩

/-- A well-formed 9-byte INTERFACE descriptor (class 3, protocol 2). -/
def ifDesc : List Nat := [0x09, 0x04, 0x00, 0x00, 0x01, 0x03, 0x01, 0x02, 0x00]

/-- A well-formed 7-byte IN-endpoint descriptor (0x81, interrupt, 4 bytes). -/
def epDesc : List Nat := [0x07, 0x05, 0x81, 0x03, 0x04, 0x00, 0x0A]

/-- C7: the claim says every table write of the configuration walk stays in
bounds for **all** accepted inputs.  The code has no bound checks: a lone
well-formed ENDPOINT descriptor (no preceding INTERFACE) indexes
`interfaces[interface_count - 1]` with `interface_count = 0`, and five
well-formed INTERFACE descriptors write `interfaces[4]`; both are
out-of-bounds writes.  A normal one-interface, one-endpoint configuration
walks cleanly to the expected tables. -/
theorem parse_config_descriptor_oob :
    parse_config_descriptor epDesc = .error .oobWrite ∧
    parse_config_descriptor
      (ifDesc ++ ifDesc ++ ifDesc ++ ifDesc ++ ifDesc) = .error .oobWrite ∧
    parse_config_descriptor (ifDesc ++ epDesc) =
      .ok ⟨[⟨0, 3, 1, 2, [⟨0x81, false, 4, 3, 0x0A⟩]⟩]⟩ ∧
    parse_config_descriptor [0x09, 0x04] = .error .ioError := by
  refine ⟨rfl, rfl, rfl, rfl⟩

/-! ## C10 — `recoilComp_getNextData`, `src/src/input_patterns.c:205`.

The context's tick arrays are modelled as total functions (the C arrays are
heap allocations of length `arrLen`, always indexed below `arrLen` here);
`lastTickMs` is a `uint32_t`, hence the `% 2^32`. -/

structure RecoilComp_Context where
  initialized : Bool
  arraysAllocated : Bool
  arrLen : Nat
  arrIndex : Nat
  lastTickMs : Nat
  pX : Nat → Int
  pY : Nat → Int
  pTs : Nat → Int

/-- `recoilComp_cbTimeElapsed`: wraparound-aware elapsed time. -/
def recoilComp_cbTimeElapsed (start now : Nat) : Nat :=
  if start ≤ now then now - start else (0xFFFFFFFF - start) + now + 1

inductive NextDataResult where
  | einval
  | noData
  | data (x y : Int)
deriving DecidableEq

/-- `recoilComp_getNextData`, returning the result code together with the
post-state of the context. -/
def recoilComp_getNextData (ctx : RecoilComp_Context) (now : Nat) :
    NextDataResult × RecoilComp_Context :=
  if ctx.initialized = false then (.einval, ctx)
  else if ctx.arraysAllocated = false then (.einval, ctx)
  else if ctx.arrLen ≤ ctx.arrIndex then (.noData, ctx)
  else
    let t : Nat := (ctx.pTs ctx.arrIndex % 2 ^ 32).toNat
    if t ≤ recoilComp_cbTimeElapsed ctx.lastTickMs now then
      (.data (ctx.pX ctx.arrIndex) (-(ctx.pY ctx.arrIndex)),
       { ctx with lastTickMs := (ctx.lastTickMs + t) % 2 ^ 32,
                  arrIndex := ctx.arrIndex + 1 })
    else (.noData, ctx)

/-- C10: on an initialized context with allocated arrays, a call that does
not emit (sequence exhausted, or the elapsed time is below the current tick
interval) returns the no-data result with the context — arrIndex,
lastTickMs and the three tick arrays — completely unchanged; an emitting
call returns `(x_ticks[i], -y_ticks[i])`, advances `lastTickMs` by exactly
`(uint32_t) t_ticks[i]` (not to the current time) and increments `arrIndex`
by 1, leaving the arrays untouched. -/
theorem recoilComp_getNextData_spec (ctx : RecoilComp_Context) (now : Nat)
    (hinit : ctx.initialized = true) (halloc : ctx.arraysAllocated = true) :
    (ctx.arrLen ≤ ctx.arrIndex →
      recoilComp_getNextData ctx now = (.noData, ctx)) ∧
    (ctx.arrIndex < ctx.arrLen →
      recoilComp_cbTimeElapsed ctx.lastTickMs now <
        (ctx.pTs ctx.arrIndex % 2 ^ 32).toNat →
      recoilComp_getNextData ctx now = (.noData, ctx)) ∧
    (ctx.arrIndex < ctx.arrLen →
      (ctx.pTs ctx.arrIndex % 2 ^ 32).toNat ≤
        recoilComp_cbTimeElapsed ctx.lastTickMs now →
      recoilComp_getNextData ctx now =
        (.data (ctx.pX ctx.arrIndex) (-(ctx.pY ctx.arrIndex)),
         { ctx with
             lastTickMs := (ctx.lastTickMs +
               (ctx.pTs ctx.arrIndex % 2 ^ 32).toNat) % 2 ^ 32,
             arrIndex := ctx.arrIndex + 1 })) := by
  refine ⟨?_, ?_, ?_⟩
  · intro hdone
    simp [recoilComp_getNextData, hinit, halloc, hdone]
  · intro hrun htime
    simp [recoilComp_getNextData, hinit, halloc, Nat.not_le.2 hrun,
      Nat.not_le.2 htime]
    omega
  · intro hrun htime
    simp [recoilComp_getNextData, hinit, halloc, Nat.not_le.2 hrun, htime]
    omega

/-- A concrete two-tick context for the C10 witness. -/
def recoilCtx2 : RecoilComp_Context :=
  { initialized := true, arraysAllocated := true, arrLen := 2, arrIndex := 0,
    lastTickMs := 100,
    pX := fun i => if i = 0 then 0 else 1,
    pY := fun i => if i = 0 then 3 else -2,
    pTs := fun _ => 13 }

/-- Witness for C10: at `now = 105` (elapsed 5 < 13) nothing is emitted and
the state is untouched; at `now = 113` the tuple `(0, -3)` is emitted,
`lastTickMs` becomes 113 and `arrIndex` 1. -/
theorem recoilComp_getNextData_spec_witness :
    recoilComp_getNextData recoilCtx2 105 = (.noData, recoilCtx2) ∧
    recoilComp_getNextData recoilCtx2 113 =
      (.data 0 (-3),
       { recoilCtx2 with lastTickMs := 113, arrIndex := 1 }) := by
  constructor
  · exact (recoilComp_getNextData_spec recoilCtx2 105 rfl rfl).2.1
      (by decide) (by decide)
  · have h := (recoilComp_getNextData_spec recoilCtx2 113 rfl rfl).2.2
      (by decide) (by decide)
    rw [h]
    rfl

/-! ## C3 — `recoilComp_cbGenerateDataLocked`, `src/src/input_patterns.c:413`.

`float` arithmetic is modelled as exact rational arithmetic; `floorf` is
`Int.floor` and `roundf` is round-half-away-from-zero (`roundC`).  The x, y
and t coordinates are processed by identical, independent code (separate
`sX/sY/sTimestamp`, `fixX/fixY/fixTs`, `sumX/sumY/sumTs` accumulators inside
one loop), so the embedding runs one generator `recoilComp_genTicks` per
coordinate.  Note the timestamp is **not** scaled by
coefficient/sensitivity in the source (`timestamp = pData[rawIdx + 2]`).
The `idx >= arrLen` break never fires because exactly
`groups * firerounds_sampling` ticks are produced. -/

/-- `roundf`: round half away from zero. -/
def roundC (q : ℚ) : Int := if 0 ≤ q then ⌊q + 1 / 2⌋ else -⌊-q + 1 / 2⌋

/-- The inner `for (j = 0; j < firerounds_sampling; j++)` loop for one
coordinate: every tick stores `s`, and while `fix > 0` the tick gets `+1`
and `fix` decreases. -/
def distLoop (s : Int) : Nat → Int → List Int
  | 0, _ => []
  | n + 1, fix =>
    if 0 < fix then (s + 1) :: distLoop s n (fix - 1)
    else s :: distLoop s n fix

/-- The per-group generation recursion for one coordinate.  `sumS` is the
running stored sum (`sumX`, integer-valued), `sumE` the running exact sum
(`sumX0`). -/
def recoilComp_genTicks (n : Nat) : List ℚ → Int → ℚ → List Int
  | [], _, _ => []
  | v :: rest, sumS, sumE =>
    let s : Int := ⌊v / (n : ℚ)⌋
    let sumS1 : Int := sumS + s * n
    let sumE1 : ℚ := sumE + v
    let fix : Int := roundC (sumE1 - (sumS1 : ℚ))
    distLoop s n fix ++
      recoilComp_genTicks n rest (sumS1 + min (max fix 0) (n : Int)) sumE1

/-- Split the flat preset float array into its `(x, y, t)` groups
(`RECOIL_COMP_DATA_GROUP_SIZE = 3`). -/
def groupsOf3 : List ℚ → List (ℚ × ℚ × ℚ)
  | a :: b :: c :: rest => (a, b, c) :: groupsOf3 rest
  | _ => []

/-- The per-group exact scaled x values (`x = pData[3i] * coeff / sens`). -/
def recoilXs (data : List ℚ) (coeff sens : ℚ) : List ℚ :=
  (groupsOf3 data).map (fun gp => gp.1 * coeff / sens)

/-- The per-group exact scaled y values. -/
def recoilYs (data : List ℚ) (coeff sens : ℚ) : List ℚ :=
  (groupsOf3 data).map (fun gp => gp.2.1 * coeff / sens)

/-- The per-group timestamps (not scaled in the source). -/
def recoilTs (data : List ℚ) : List ℚ :=
  (groupsOf3 data).map (fun gp => gp.2.2)

/-- `recoilComp_cbGenerateDataLocked`: validity checks
(`dataLen > 0`, `dataLen % 3 == 0`, `firerounds_sampling > 0`), then the
three tick arrays. -/
def recoilComp_cbGenerateDataLocked (data : List ℚ) (coeff sens : ℚ)
    (n : Nat) : Option (List Int × List Int × List Int) :=
  if data.length = 0 ∨ data.length % 3 ≠ 0 ∨ n = 0 then none
  else some (recoilComp_genTicks n (recoilXs data coeff sens) 0 0,
             recoilComp_genTicks n (recoilYs data coeff sens) 0 0,
             recoilComp_genTicks n (recoilTs data) 0 0)

/-- Counterexample to C3 as stated: the valid preset
`[1/2, 0, 8, 1/2, 0, 8]` (two groups) with `firerounds_sampling = 2`,
`coeff = sens = 1` — all values exactly representable in `float`, so exact
rationals and `float` agree.  The x ticks are `[1, 0, 0, 0]`: group 1 gets
both the floor value and the diffused carry, so the *second* group's sum is
`0 ≠ round(0.5 * 1 / 1) = 1`.  Error diffusion is cumulative, not
per-group. -/
theorem recoilComp_group_sum_counterexample :
    recoilComp_cbGenerateDataLocked [1/2, 0, 8, 1/2, 0, 8] 1 1 2 =
      some ([1, 0, 0, 0], [0, 0, 0, 0], [4, 4, 4, 4]) ∧
    (([1, 0, 0, 0] : List Int).drop 2).sum = 0 ∧
    roundC ((1 / 2 : ℚ) * 1 / 1) = 1 ∧ (0 : Int) ≠ 1 := by
  refine ⟨?_, by decide, ?_, by decide⟩
  · norm_num [recoilComp_cbGenerateDataLocked, recoilXs, recoilYs, recoilTs,
      groupsOf3, recoilComp_genTicks, distLoop, roundC]
  · norm_num [roundC]

theorem distLoop_length (s : Int) (n : Nat) (fix : Int) :
    (distLoop s n fix).length = n := by
  induction n generalizing fix with
  | zero => rfl
  | succ n ih =>
    by_cases h : 0 < fix <;> simp [distLoop, h, ih]

theorem distLoop_sum (s : Int) (n : Nat) (fix : Int) :
    (distLoop s n fix).sum = n * s + min (max fix 0) n := by
  induction n generalizing fix with
  | zero => simp [distLoop]
  | succ n ih =>
    by_cases h : 0 < fix
    · simp only [distLoop, if_pos h, List.sum_cons, ih]
      have hmm : min (max fix 0) ((n : Int) + 1) =
          min (max (fix - 1) 0) (n : Int) + 1 := by omega
      push_cast
      rw [hmm]
      ring
    · simp only [distLoop, if_neg h, List.sum_cons, ih]
      have hmm : min (max fix 0) ((n : Int) + 1) =
          min (max fix 0) (n : Int) := by omega
      push_cast
      rw [hmm]
      ring

/-- The per-group error-diffusion step keeps the difference between the
exact running sum and the stored running sum within one half.  `s`, `fix`
and `k` are the group's `sX`, `fixX` and the number of `+1` corrections the
inner loop applies. -/
theorem recoil_step_bound (n : Nat) (hn : 0 < n) (sumS : Int) (sumE v : ℚ)
    (s fix k : Int) (hs : s = ⌊v / (n : ℚ)⌋)
    (hfixe : fix = roundC ((sumE + v) - ((sumS + s * n : Int) : ℚ)))
    (hke : k = min (max fix 0) (n : Int))
    (hd : |sumE - (sumS : ℚ)| ≤ 1 / 2) :
    |(sumE + v) - ((sumS + s * n + k : Int) : ℚ)| ≤ 1 / 2 := by
  subst hs hfixe hke
  have hnQ : (0 : ℚ) < n := by exact_mod_cast hn
  set s : Int := ⌊v / (n : ℚ)⌋ with hs
  set q : ℚ := (sumE + v) - ((sumS + s * n : Int) : ℚ) with hqdef
  have habs := abs_le.1 hd
  have hrem0 : 0 ≤ v - (s : ℚ) * n := by
    have h1 : (s : ℚ) ≤ v / n := Int.floor_le _
    have h2 : (s : ℚ) * n ≤ (v / n) * n := by
      exact mul_le_mul_of_nonneg_right h1 (le_of_lt hnQ)
    rw [div_mul_cancel₀ v (ne_of_gt hnQ)] at h2
    linarith
  have hrem1 : v - (s : ℚ) * n < n := by
    have h1 : v / n < s + 1 := Int.lt_floor_add_one _
    have h2 : (v / n) * n < ((s : ℚ) + 1) * n := by
      exact mul_lt_mul_of_pos_right h1 hnQ
    rw [div_mul_cancel₀ v (ne_of_gt hnQ)] at h2
    nlinarith
  have hq0 : -(1 / 2) ≤ q := by
    rw [hqdef]
    push_cast
    linarith
  have hq1 : q < n + 1 / 2 := by
    rw [hqdef]
    push_cast
    linarith
  by_cases hq : 0 ≤ q
  · have hfix : roundC q = ⌊q + 1 / 2⌋ := if_pos hq
    have h1 : ((⌊q + 1 / 2⌋ : Int) : ℚ) ≤ q + 1 / 2 := Int.floor_le _
    have h2 : q + 1 / 2 < ⌊q + 1 / 2⌋ + 1 := Int.lt_floor_add_one _
    have hfix0 : 0 ≤ ⌊q + 1 / 2⌋ := Int.le_floor.2 (by push_cast; linarith)
    have hfixn : ⌊q + 1 / 2⌋ ≤ (n : Int) := by
      have h3 : ⌊q + 1 / 2⌋ < (n : Int) + 1 :=
        Int.floor_lt.2 (by push_cast; linarith)
      omega
    rw [hfix, max_eq_left hfix0, min_eq_left hfixn]
    rw [show (sumE + v) - ((sumS + s * n + ⌊q + 1 / 2⌋ : Int) : ℚ) =
      q - ((⌊q + 1 / 2⌋ : Int) : ℚ) by rw [hqdef]; push_cast; ring]
    exact abs_le.2 ⟨by linarith, by linarith⟩
  · have hqneg : q < 0 := lt_of_not_ge hq
    have hfix : roundC q = -⌊-q + 1 / 2⌋ := if_neg hq
    have hfix0 : 0 ≤ ⌊-q + 1 / 2⌋ := Int.le_floor.2 (by push_cast; linarith)
    have hfixneg : roundC q ≤ 0 := by rw [hfix]; omega
    have hmax : max (roundC q) 0 = 0 := max_eq_right hfixneg
    have hmin : min (0 : Int) (n : Int) = 0 :=
      min_eq_left (by exact_mod_cast Nat.zero_le n)
    rw [hmax, hmin]
    rw [show (sumE + v) - ((sumS + s * n + 0 : Int) : ℚ) = q by
      rw [hqdef]; push_cast; ring]
    exact abs_le.2 ⟨hq0, by linarith⟩

/-- Cumulative error-diffusion invariant of the generation recursion. -/
theorem genTicks_cumulative_aux (n : Nat) (hn : 0 < n) :
    ∀ (vals : List ℚ) (sumS : Int) (sumE : ℚ),
      |sumE - (sumS : ℚ)| ≤ 1 / 2 →
      ∀ g : Nat,
        |((((recoilComp_genTicks n vals sumS sumE).take (g * n)).sum : Int) : ℚ)
          + (sumS : ℚ) - (sumE + (vals.take g).sum)| ≤ 1 / 2 := by
  intro vals
  induction vals with
  | nil =>
    intro sumS sumE hd g
    simp only [recoilComp_genTicks, List.take_nil, List.sum_nil]
    rw [show ((0 : Int) : ℚ) + sumS - (sumE + 0) = -(sumE - sumS) by ring,
      abs_neg]
    exact hd
  | cons v rest ih =>
    intro sumS sumE hd g
    cases g with
    | zero =>
      simp only [Nat.zero_mul, List.take_zero, List.sum_nil]
      rw [show ((0 : Int) : ℚ) + sumS - (sumE + 0) = -(sumE - sumS) by ring,
        abs_neg]
      exact hd
    | succ g =>
      simp only [recoilComp_genTicks]
      set s : Int := ⌊v / (n : ℚ)⌋ with hs
      set fix : Int :=
        roundC ((sumE + v) - ((sumS + s * n : Int) : ℚ)) with hfixe
      set k : Int := min (max fix 0) (n : Int) with hke
      have hlen : (distLoop s n fix).length = n := distLoop_length _ _ _
      rw [show (g + 1) * n = n + g * n by ring,
        List.take_append_eq_append_take, hlen,
        List.take_of_length_le (le_of_eq_of_le hlen (Nat.le_add_right n _)),
        Nat.add_sub_cancel_left, List.sum_append, distLoop_sum,
        List.take_succ_cons, List.sum_cons]
      have hstep := recoil_step_bound n hn sumS sumE v s fix k hs hfixe hke hd
      have hrec := ih (sumS + s * n + k) (sumE + v) hstep g
      rw [← hke]
      convert hrec using 2
      push_cast
      ring

/-- C3 (amended): for every valid preset and parameters, generation
succeeds, and for every group count `g` the sum of the first `g × n` ticks
of each coordinate differs from the corresponding exact cumulative value —
`Σ x_raw·coeff/sens` for x, `Σ y_raw·coeff/sens` for y, the **unscaled**
`Σ t_raw` for t — by at most one half.  Error diffusion is cumulative
across groups (carry can move between groups, see the counterexample), and
at exact half-way ties the rounded cumulative total may be off by the tie,
so the invariant is this half-unit bound rather than per-group equality
with `round`. -/
theorem recoilComp_generate_cumulative (data : List ℚ) (coeff sens : ℚ)
    (n : Nat) (hne : data.length ≠ 0) (h3 : data.length % 3 = 0)
    (hn : 0 < n) :
    ∃ tx ty tt,
      recoilComp_cbGenerateDataLocked data coeff sens n = some (tx, ty, tt) ∧
      ∀ g : Nat,
        |((tx.take (g * n)).sum : ℚ) -
          ((recoilXs data coeff sens).take g).sum| ≤ 1 / 2 ∧
        |((ty.take (g * n)).sum : ℚ) -
          ((recoilYs data coeff sens).take g).sum| ≤ 1 / 2 ∧
        |((tt.take (g * n)).sum : ℚ) - ((recoilTs data).take g).sum| ≤ 1 / 2
      := by
  refine ⟨recoilComp_genTicks n (recoilXs data coeff sens) 0 0,
          recoilComp_genTicks n (recoilYs data coeff sens) 0 0,
          recoilComp_genTicks n (recoilTs data) 0 0, ?_, ?_⟩
  · simp [recoilComp_cbGenerateDataLocked, hne, h3, hn.ne']
  · intro g
    refine ⟨?_, ?_, ?_⟩
    · have h := genTicks_cumulative_aux n hn (recoilXs data coeff sens) 0 0
        (by simp) g
      push_cast at h ⊢
      convert h using 2
      ring
    · have h := genTicks_cumulative_aux n hn (recoilYs data coeff sens) 0 0
        (by simp) g
      push_cast at h ⊢
      convert h using 2
      ring
    · have h := genTicks_cumulative_aux n hn (recoilTs data) 0 0
        (by simp) g
      push_cast at h ⊢
      convert h using 2
      ring

/-- Witness for C3 (amended) on the concrete valid preset
`[1/2, 0, 8, 1/2, 0, 8]` with `coeff = sens = 1` and sampling 2. -/
theorem recoilComp_generate_cumulative_witness :
    ∃ tx ty tt,
      recoilComp_cbGenerateDataLocked [1/2, 0, 8, 1/2, 0, 8] 1 1 2 =
        some (tx, ty, tt) ∧
      ∀ g : Nat,
        |((tx.take (g * 2)).sum : ℚ) -
          ((recoilXs [1/2, 0, 8, 1/2, 0, 8] 1 1).take g).sum| ≤ 1 / 2 ∧
        |((ty.take (g * 2)).sum : ℚ) -
          ((recoilYs [1/2, 0, 8, 1/2, 0, 8] 1 1).take g).sum| ≤ 1 / 2 ∧
        |((tt.take (g * 2)).sum : ℚ) -
          ((recoilTs [1/2, 0, 8, 1/2, 0, 8]).take g).sum| ≤ 1 / 2 :=
  recoilComp_generate_cumulative [1/2, 0, 8, 1/2, 0, 8] 1 1 2
    (by decide) (by decide) (by decide)

end GhostHIDe
